import Mathlib

/-!
Verification of the trade-data enrichment pipeline of `src/trade_chart.py`.

The pipeline's dataframe transformations are embedded as pure Lean
functions over lists of ticks:

* floats (`price`, `vwap`) are modelled as `ℚ`; the IEEE NaN that pandas
  produces for `0/0` (and the NaN produced by `Series.max()` on an empty
  series) is modelled as `none : Option ℚ`;
* timestamps (`ts_event`) are nanosecond epoch instants modelled as `Int`;
  the timezone conversion `tz_convert('America/New_York')` is modelled as
  adding a fixed offset `tzOffset` (the claims under study never depend on
  the offset's value, only on the bucketing it induces);
* the `strftime` bucket strings `'%Y-%m-%d %H:00'` / `'%Y-%m-%d %H:%M'`
  are modelled by their defining property: two ticks get equal bucket keys
  iff they fall in the same local clock hour / minute, i.e. by the floor
  division of the local nanosecond instant by the nanoseconds in an
  hour / minute;
* `df.sort_values('ts_event')` is modelled by an executable comparison
  sort on `ts_event`.  (pandas' default sort kind is `quicksort`, which
  carries no stability guarantee; no theorem below relies on any
  tie-ordering property of the stand-in sort.)

The order of the stages follows the source exactly: `calculate_vwap`
(line 51) runs on the raw fetched frame, the date-range filter
(lines 57-60) and the sort (line 66) run afterwards, and the extrema
flags, note column, CSV export and minute-volume aggregation
(lines 69-119) are computed from the filtered, sorted frame.
-/

namespace TradeChart

/-- A raw trade tick as returned by the data source (`trades.to_df()`):
nanosecond UTC timestamp, price, size, symbol. -/
structure Tick where
  ts_event : Int
  price : ℚ
  size : Nat
  symbol : String
  deriving DecidableEq

/-- Nanoseconds in one clock hour. -/
def nsPerHour : Int := 3600 * 1000000000

/-- Nanoseconds in one clock minute. -/
def nsPerMinute : Int := 60 * 1000000000

/-- `ts_event_et` (line 48): the tick's instant shifted into the reporting
timezone, modelled as adding a fixed offset. -/
def localTime (tzOffset : Int) (t : Tick) : Int :=
  t.ts_event + tzOffset

/-- The `hour` column (line 69): `strftime('%Y-%m-%d %H:00')` of the local
time, modelled by the local clock hour index. -/
def hourKey (tzOffset : Int) (t : Tick) : Int :=
  (localTime tzOffset t).fdiv nsPerHour

/-- The `minute` column (line 118): `strftime('%Y-%m-%d %H:%M')` of the
local time, modelled by the local clock minute index. -/
def minuteKey (tzOffset : Int) (t : Tick) : Int :=
  (localTime tzOffset t).fdiv nsPerMinute

/-- The running state of `calculate_vwap` (lines 13-19): pandas `cumsum`
over `size` and over `price*size`, emitting at every row the quotient
`cumulative_volume_price / cumulative_volume`.  Pandas float division
yields NaN when the cumulative volume is zero (0/0); that emission is
modelled as `none`. -/
def vwapAux (cumVolume : Nat) (cumVolumePrice : ℚ) : List Tick → List (Tick × Option ℚ)
  | [] => []
  | t :: rest =>
      let cv := cumVolume + t.size
      let cn := cumVolumePrice + t.price * (t.size : ℚ)
      (t, if cv = 0 then none else some (cn / (cv : ℚ))) :: vwapAux cv cn rest

/-- `calculate_vwap` (lines 13-19): pairs every tick of the input frame,
in input order, with its running volume-weighted average price. -/
def calculate_vwap (ticks : List Tick) : List (Tick × Option ℚ) :=
  vwapAux 0 0 ticks

/-- The date-range filter (lines 57-60):
`df[(df.ts_event >= start_ts) & (df.ts_event <= end_ts)]`.
It runs after `calculate_vwap`, so it filters rows that already carry
their vwap value. -/
def rangeFilter (startTs endTs : Int) (rows : List (Tick × Option ℚ)) : List (Tick × Option ℚ) :=
  rows.filter (fun r => decide (startTs ≤ r.1.ts_event) && decide (r.1.ts_event ≤ endTs))

/-- The comparison used by `df.sort_values('ts_event')` (line 66). -/
def tsLe (a b : Tick × Option ℚ) : Prop :=
  a.1.ts_event ≤ b.1.ts_event

instance : DecidableRel tsLe := fun a b => Int.decLe a.1.ts_event b.1.ts_event

/-- `df.sort_values('ts_event')` (line 66), as an executable comparison
sort on `ts_event`.  The source delegates to pandas' default sort kind
(`quicksort`); no theorem in this file relies on how the stand-in orders
rows with equal `ts_event`. -/
def sortByTime (rows : List (Tick × Option ℚ)) : List (Tick × Option ℚ) :=
  rows.insertionSort tsLe

/-- `Series.max()`: the maximum of a pandas series, NaN (`none`) on an
empty series. -/
def seriesMax : List ℚ → Option ℚ
  | [] => none
  | p :: rest =>
      match seriesMax rest with
      | none => some p
      | some m => some (max p m)

/-- `Series.min()`: the minimum of a pandas series, NaN (`none`) on an
empty series. -/
def seriesMin : List ℚ → Option ℚ
  | [] => none
  | p :: rest =>
      match seriesMin rest with
      | none => some p
      | some m => some (min p m)

/-- The rows of one hour partition: `df[df.hour == k]` for an hour key
`k` (the `hour_mask` of line 83). -/
def hourGroup (tzOffset : Int) (ticks : List Tick) (k : Int) : List Tick :=
  ticks.filter (fun u => decide (hourKey tzOffset u = k))

/-- The `max` aggregate of `df.groupby('hour')['price']` (line 72) for one
hour key. -/
def hourMax (tzOffset : Int) (ticks : List Tick) (k : Int) : Option ℚ :=
  seriesMax ((hourGroup tzOffset ticks k).map (fun u => u.price))

/-- The `min` aggregate of `df.groupby('hour')['price']` (line 72) for one
hour key. -/
def hourMin (tzOffset : Int) (ticks : List Tick) (k : Int) : Option ℚ :=
  seriesMin ((hourGroup tzOffset ticks k).map (fun u => u.price))

/-- `day_high = df['price'].max()` (line 73), computed over the filtered,
sorted frame; `none` (NaN) when the frame is empty. -/
def day_high (ticks : List Tick) : Option ℚ :=
  seriesMax (ticks.map (fun u => u.price))

/-- `day_low = df['price'].min()` (line 74). -/
def day_low (ticks : List Tick) : Option ℚ :=
  seriesMin (ticks.map (fun u => u.price))

/-- The `is_hourly_high` flag (lines 77, 82-84): the loop over
`hourly_stats` marks, inside every hour mask, exactly the rows whose
`price` equals that hour's `max`.  Net effect per row: the row's price
equals the maximum of its own hour partition.  A NaN aggregate (empty
partition) compares unequal to every price, as in pandas. -/
def is_hourly_high (tzOffset : Int) (ticks : List Tick) (t : Tick) : Bool :=
  decide (hourMax tzOffset ticks (hourKey tzOffset t) = some t.price)

/-- The `is_hourly_low` flag (lines 78, 82-83, 85). -/
def is_hourly_low (tzOffset : Int) (ticks : List Tick) (t : Tick) : Bool :=
  decide (hourMin tzOffset ticks (hourKey tzOffset t) = some t.price)

/-- The `is_day_high` flag (line 79): `df['price'] == day_high`; a NaN
`day_high` (empty frame) compares unequal to every price. -/
def is_day_high (ticks : List Tick) (t : Tick) : Bool :=
  decide (day_high ticks = some t.price)

/-- The `is_day_low` flag (line 80): `df['price'] == day_low`. -/
def is_day_low (ticks : List Tick) (t : Tick) : Bool :=
  decide (day_low ticks = some t.price)

/-- One masked assignment `df.loc[mask, 'note'] = label` (lines 89-92):
where the mask holds the label replaces the current cell, elsewhere the
cell is kept. -/
def overwrite (flag : Bool) (label current : String) : String :=
  if flag then label else current

/-- The `note` column of one row (lines 88-92): the cell starts as `''`
and the four masked assignments run in source order
HOUR_HIGH, HOUR_LOW, DAY_HIGH, DAY_LOW, each overwriting the previous
value where its flag holds. -/
def noteOf (hh hl dh dl : Bool) : String :=
  overwrite dl "DAY_LOW"
    (overwrite dh "DAY_HIGH"
      (overwrite hl "HOUR_LOW"
        (overwrite hh "HOUR_HIGH" "")))

/-- The distinct hour keys of the frame, ascending — the index of
`df.groupby('hour')` (line 72; pandas groupby sorts its keys). -/
def hourKeys (tzOffset : Int) (ticks : List Tick) : List Int :=
  ((ticks.map (hourKey tzOffset)).dedup).insertionSort (fun a b => a ≤ b)

/-- `hourly_stats` (line 72): per hour key its `max` and `min` price. -/
def hourly_stats (tzOffset : Int) (ticks : List Tick) : List (Int × Option ℚ × Option ℚ) :=
  (hourKeys tzOffset ticks).map (fun k => (k, hourMax tzOffset ticks k, hourMin tzOffset ticks k))

/-- The distinct minute keys of the frame, ascending — the index of
`df.groupby('minute')` (line 119). -/
def minuteKeys (tzOffset : Int) (ticks : List Tick) : List Int :=
  ((ticks.map (minuteKey tzOffset)).dedup).insertionSort (fun a b => a ≤ b)

/-- `volume_by_minute = df.groupby('minute')['size'].sum()` (lines
118-119): one `(minute key, total size)` pair per distinct minute present;
minutes with no trades are absent. -/
def volume_by_minute (tzOffset : Int) (ticks : List Tick) : List (Int × Nat) :=
  (minuteKeys tzOffset ticks).map
    (fun k => (k, ((ticks.filter (fun u => decide (minuteKey tzOffset u = k))).map (fun u => u.size)).sum))

/-- The rows of the frame after `calculate_vwap` (line 51), the range
filter (lines 57-60) and the sort (line 66): each surviving tick still
paired with the vwap it was assigned on the raw frame. -/
def normalizedRows (startTs endTs : Int) (raw : List Tick) : List (Tick × Option ℚ) :=
  sortByTime (rangeFilter startTs endTs (calculate_vwap raw))

/-- The tick sequence of the filtered, sorted frame — the sequence over
which the extrema flags, the note column and the minute volumes are
computed (lines 69-119). -/
def normalizedTicks (startTs endTs : Int) (raw : List Tick) : List Tick :=
  (normalizedRows startTs endTs raw).map (fun r => r.1)

/-- One fully enriched row of the final frame. -/
structure Enriched where
  tick : Tick
  vwap : Option ℚ
  is_hourly_high : Bool
  is_hourly_low : Bool
  is_day_high : Bool
  is_day_low : Bool
  note : String
  deriving DecidableEq

/-- The dataframe core of `fetch_and_chart_trades` (lines 44-96): vwap on
the raw frame, then range filter, then sort, then the extrema flags and
the note column computed from the filtered, sorted frame.  Fetching,
timezone conversion, printing and chart rendering are external
collaborators and are not part of the core. -/
def fetch_and_chart_trades (tzOffset startTs endTs : Int) (raw : List Tick) : List Enriched :=
  let rows := normalizedRows startTs endTs raw
  let ticks := rows.map (fun r => r.1)
  rows.map (fun r =>
    ⟨r.1, r.2,
     is_hourly_high tzOffset ticks r.1,
     is_hourly_low tzOffset ticks r.1,
     is_day_high ticks r.1,
     is_day_low ticks r.1,
     noteOf (is_hourly_high tzOffset ticks r.1) (is_hourly_low tzOffset ticks r.1)
       (is_day_high ticks r.1) (is_day_low ticks r.1)⟩)

/-- One CSV row (line 96):
`(symbol, ts_event_et, price, vwap, size, note)`. -/
def exportRow (tzOffset : Int) (r : Enriched) : String × Int × ℚ × Option ℚ × Nat × String :=
  (r.tick.symbol, localTime tzOffset r.tick, r.tick.price, r.vwap, r.tick.size, r.note)

/-- The exported CSV body (line 96). -/
def exportRows (tzOffset : Int) (rows : List Enriched) : List (String × Int × ℚ × Option ℚ × Nat × String) :=
  rows.map (exportRow tzOffset)

/-- Cumulative volume over positions `0..i` of a tick sequence. -/
def prefixVolume (ticks : List Tick) (i : Nat) : Nat :=
  ((ticks.take (i + 1)).map (fun t => t.size)).sum

/-- Cumulative notional (`price*size`) over positions `0..i` of a tick
sequence. -/
def prefixNotional (ticks : List Tick) (i : Nat) : ℚ :=
  ((ticks.take (i + 1)).map (fun t => t.price * (t.size : ℚ))).sum

/-- The volume-weighted average price over positions `0..i` of a tick
sequence, undefined (`none`) when the volume sum is zero.  Stated from
the spec's formula; used both to describe what `calculate_vwap` computes
on its input and, applied to the normalized sequence, as the spec-side
reading of claim C1. -/
def specVwapAt (ticks : List Tick) (i : Nat) : Option ℚ :=
  if prefixVolume ticks i = 0 then none
  else some (prefixNotional ticks i / (prefixVolume ticks i : ℚ))

/-- Modelled from the spec: the VWAP series the spec prescribes for a
(normalized) tick sequence — at every position the prefix notional
divided by the prefix volume of that same sequence. -/
def spec_vwap_series (ticks : List Tick) : List (Option ℚ) :=
  (List.range ticks.length).map (specVwapAt ticks)

/-! ## Helper lemmas -/

theorem vwapAux_map_fst (cv : Nat) (cn : ℚ) (l : List Tick) :
    (vwapAux cv cn l).map Prod.fst = l := by
  induction l generalizing cv cn with
  | nil => rfl
  | cons t rest ih => simp [vwapAux, ih]

theorem vwapAux_length (cv : Nat) (cn : ℚ) (l : List Tick) :
    (vwapAux cv cn l).length = l.length := by
  induction l generalizing cv cn with
  | nil => rfl
  | cons t rest ih => simp [vwapAux, ih]

theorem sum_map_filter_add {α : Type} (p : α → Bool) (f : α → Nat) (l : List α) :
    ((l.filter p).map f).sum + ((l.filter (fun a => !p a)).map f).sum = (l.map f).sum := by
  induction l with
  | nil => rfl
  | cons a l ih => by_cases h : p a <;> simp [h] <;> omega

theorem sum_groupSums {α : Type} (key : α → Int) (f : α → Nat) (ks : List Int) :
    ∀ l : List α, ks.Nodup → (∀ a ∈ l, key a ∈ ks) →
      (ks.map (fun k => ((l.filter (fun a => decide (key a = k))).map f).sum)).sum
        = (l.map f).sum := by
  induction ks with
  | nil =>
      intro l _ hmem
      have hl : l = [] := List.eq_nil_iff_forall_not_mem.mpr (fun a ha => by simpa using hmem a ha)
      simp [hl]
  | cons k ks ih =>
      intro l hnd hmem
      have hk : k ∉ ks := (List.nodup_cons.mp hnd).1
      have hnd' : ks.Nodup := (List.nodup_cons.mp hnd).2
      have hrest : ∀ k' ∈ ks,
          l.filter (fun a => decide (key a = k'))
            = (l.filter (fun a => !decide (key a = k))).filter (fun a => decide (key a = k')) := by
        intro k' hk'
        rw [List.filter_filter]
        apply List.filter_congr
        intro a _
        by_cases h : key a = k'
        · have hkk : ¬k' = k := fun he => hk (he ▸ hk')
          simp [h, hkk]
        · simp [h]
      have hters : ∀ a ∈ l.filter (fun a => !decide (key a = k)), key a ∈ ks := by
        intro a ha
        have h1 := List.mem_filter.mp ha
        have h2 := hmem a h1.1
        rcases List.mem_cons.mp h2 with h | h
        · exfalso
          simp [h] at h1
        · exact h
      calc ((k :: ks).map (fun k => ((l.filter (fun a => decide (key a = k))).map f).sum)).sum
          = ((l.filter (fun a => decide (key a = k))).map f).sum
            + (ks.map (fun k' => ((l.filter (fun a => decide (key a = k'))).map f).sum)).sum := by
            simp
        _ = ((l.filter (fun a => decide (key a = k))).map f).sum
            + (ks.map (fun k' => (((l.filter (fun a => !decide (key a = k))).filter
                (fun a => decide (key a = k'))).map f).sum)).sum := by
            congr 1
            apply congrArg
            exact List.map_congr_left (fun k' hk' => by rw [hrest k' hk'])
        _ = ((l.filter (fun a => decide (key a = k))).map f).sum
            + ((l.filter (fun a => !decide (key a = k))).map f).sum := by
            rw [ih (l.filter (fun a => !decide (key a = k))) hnd' hters]
        _ = (l.map f).sum := sum_map_filter_add (fun a => decide (key a = k)) f l

theorem seriesMax_eq_none_iff (l : List ℚ) : seriesMax l = none ↔ l = [] := by
  cases l with
  | nil => simp [seriesMax]
  | cons a l =>
      simp only [seriesMax]
      cases seriesMax l <;> simp

theorem seriesMin_eq_none_iff (l : List ℚ) : seriesMin l = none ↔ l = [] := by
  cases l with
  | nil => simp [seriesMin]
  | cons a l =>
      simp only [seriesMin]
      cases seriesMin l <;> simp

theorem seriesMax_eq_some_iff (l : List ℚ) : ∀ p : ℚ,
    seriesMax l = some p ↔ p ∈ l ∧ ∀ q ∈ l, q ≤ p := by
  induction l with
  | nil => intro p; simp [seriesMax]
  | cons a l ih =>
      intro p
      cases hl : seriesMax l with
      | none =>
          have hnil : l = [] := (seriesMax_eq_none_iff l).mp hl
          subst hnil
          constructor
          · intro h
            have ha : a = p := by simpa [seriesMax] using h
            subst ha
            exact ⟨List.mem_singleton.mpr rfl, fun q hq => le_of_eq (List.mem_singleton.mp hq)⟩
          · rintro ⟨hp, _⟩
            have hp' : p = a := List.mem_singleton.mp hp
            subst hp'
            simp [seriesMax]
      | some m =>
          have hm := (ih m).mp hl
          simp only [seriesMax, hl, Option.some.injEq]
          constructor
          · intro h
            subst h
            constructor
            · rcases max_choice a m with hmax | hmax
              · rw [hmax]; exact List.mem_cons_self a l
              · rw [hmax]; exact List.mem_cons_of_mem a hm.1
            · intro q hq
              rcases List.mem_cons.mp hq with hq | hq
              · rw [hq]; exact le_max_left a m
              · exact le_trans (hm.2 q hq) (le_max_right a m)
          · rintro ⟨hp, hub⟩
            have ham : a ≤ p := hub a (List.mem_cons_self a l)
            have hmm : m ≤ p := hub m (List.mem_cons_of_mem a hm.1)
            refine le_antisymm (max_le ham hmm) ?_
            rcases List.mem_cons.mp hp with hp | hp
            · rw [hp]; exact le_max_left a m
            · exact le_trans (hm.2 p hp) (le_max_right a m)

theorem seriesMin_eq_some_iff (l : List ℚ) : ∀ p : ℚ,
    seriesMin l = some p ↔ p ∈ l ∧ ∀ q ∈ l, p ≤ q := by
  induction l with
  | nil => intro p; simp [seriesMin]
  | cons a l ih =>
      intro p
      cases hl : seriesMin l with
      | none =>
          have hnil : l = [] := (seriesMin_eq_none_iff l).mp hl
          subst hnil
          constructor
          · intro h
            have ha : a = p := by simpa [seriesMin] using h
            subst ha
            exact ⟨List.mem_singleton.mpr rfl, fun q hq => le_of_eq (List.mem_singleton.mp hq).symm⟩
          · rintro ⟨hp, _⟩
            have hp' : p = a := List.mem_singleton.mp hp
            subst hp'
            simp [seriesMin]
      | some m =>
          have hm := (ih m).mp hl
          simp only [seriesMin, hl, Option.some.injEq]
          constructor
          · intro h
            subst h
            constructor
            · rcases min_choice a m with hmin | hmin
              · rw [hmin]; exact List.mem_cons_self a l
              · rw [hmin]; exact List.mem_cons_of_mem a hm.1
            · intro q hq
              rcases List.mem_cons.mp hq with hq | hq
              · rw [hq]; exact min_le_left a m
              · exact le_trans (min_le_right a m) (hm.2 q hq)
          · rintro ⟨hp, hlb⟩
            have ham : p ≤ a := hlb a (List.mem_cons_self a l)
            have hmm : p ≤ m := hlb m (List.mem_cons_of_mem a hm.1)
            refine le_antisymm ?_ (le_min ham hmm)
            rcases List.mem_cons.mp hp with hp | hp
            · rw [hp]; exact min_le_left a m
            · exact le_trans (min_le_right a m) (hm.2 p hp)

theorem is_hourly_high_iff (tzOffset : Int) (ticks : List Tick) (t : Tick) (h : t ∈ ticks) :
    is_hourly_high tzOffset ticks t = true
      ↔ ∀ u ∈ ticks, hourKey tzOffset u = hourKey tzOffset t → u.price ≤ t.price := by
  have htg : t ∈ hourGroup tzOffset ticks (hourKey tzOffset t) :=
    List.mem_filter.mpr ⟨h, by simp⟩
  unfold is_hourly_high hourMax
  rw [decide_eq_true_iff, seriesMax_eq_some_iff]
  constructor
  · rintro ⟨_, hub⟩ u hu hk
    exact hub u.price (List.mem_map_of_mem _ (List.mem_filter.mpr ⟨hu, by simp [hk]⟩))
  · intro hub
    refine ⟨List.mem_map_of_mem _ htg, ?_⟩
    intro q hq
    rcases List.mem_map.mp hq with ⟨u, hu, rfl⟩
    have hu' := List.mem_filter.mp hu
    exact hub u hu'.1 (by simpa using hu'.2)

theorem is_hourly_low_iff (tzOffset : Int) (ticks : List Tick) (t : Tick) (h : t ∈ ticks) :
    is_hourly_low tzOffset ticks t = true
      ↔ ∀ u ∈ ticks, hourKey tzOffset u = hourKey tzOffset t → t.price ≤ u.price := by
  have htg : t ∈ hourGroup tzOffset ticks (hourKey tzOffset t) :=
    List.mem_filter.mpr ⟨h, by simp⟩
  unfold is_hourly_low hourMin
  rw [decide_eq_true_iff, seriesMin_eq_some_iff]
  constructor
  · rintro ⟨_, hlb⟩ u hu hk
    exact hlb u.price (List.mem_map_of_mem _ (List.mem_filter.mpr ⟨hu, by simp [hk]⟩))
  · intro hlb
    refine ⟨List.mem_map_of_mem _ htg, ?_⟩
    intro q hq
    rcases List.mem_map.mp hq with ⟨u, hu, rfl⟩
    have hu' := List.mem_filter.mp hu
    exact hlb u hu'.1 (by simpa using hu'.2)

theorem is_day_high_iff (ticks : List Tick) (t : Tick) (h : t ∈ ticks) :
    is_day_high ticks t = true ↔ ∀ u ∈ ticks, u.price ≤ t.price := by
  unfold is_day_high day_high
  rw [decide_eq_true_iff, seriesMax_eq_some_iff]
  constructor
  · rintro ⟨_, hub⟩ u hu
    exact hub u.price (List.mem_map_of_mem _ hu)
  · intro hub
    refine ⟨List.mem_map_of_mem _ h, ?_⟩
    intro q hq
    rcases List.mem_map.mp hq with ⟨u, hu, rfl⟩
    exact hub u hu

theorem is_day_low_iff (ticks : List Tick) (t : Tick) (h : t ∈ ticks) :
    is_day_low ticks t = true ↔ ∀ u ∈ ticks, t.price ≤ u.price := by
  unfold is_day_low day_low
  rw [decide_eq_true_iff, seriesMin_eq_some_iff]
  constructor
  · rintro ⟨_, hlb⟩ u hu
    exact hlb u.price (List.mem_map_of_mem _ hu)
  · intro hlb
    refine ⟨List.mem_map_of_mem _ h, ?_⟩
    intro q hq
    rcases List.mem_map.mp hq with ⟨u, hu, rfl⟩
    exact hlb u hu

/-! ## Claims -/

/-- C7: the range filter (lines 57-60) keeps exactly the rows whose
`ts_event` lies in the inclusive `[start, end]` range: a row is in the
filtered frame iff it was in the input frame and `start ≤ ts_event ≤ end`;
in particular a tick whose `ts_event` equals either bound is retained. -/
theorem claim7_filter_keeps_inclusive_range (startTs endTs : Int)
    (rows : List (Tick × Option ℚ)) (r : Tick × Option ℚ) :
    r ∈ rangeFilter startTs endTs rows
      ↔ r ∈ rows ∧ startTs ≤ r.1.ts_event ∧ r.1.ts_event ≤ endTs := by
  simp [rangeFilter, List.mem_filter]

/-- C7 witness: a row whose `ts_event` equals the lower bound is kept. -/
theorem claim7_witness :
    (⟨⟨0, 1, 1, "X"⟩, none⟩ : Tick × Option ℚ)
      ∈ rangeFilter 0 10 [⟨⟨0, 1, 1, "X"⟩, none⟩] :=
  (claim7_filter_keeps_inclusive_range 0 10 [⟨⟨0, 1, 1, "X"⟩, none⟩] ⟨⟨0, 1, 1, "X"⟩, none⟩).mpr
    ⟨List.mem_singleton.mpr rfl, by norm_num, by norm_num⟩

/-- C8: summing the per-minute totals of `volume_by_minute` (lines
118-119) over all buckets recovers the total `size` of the grouped tick
sequence: the minute grouping is a partition and loses no volume. -/
theorem claim8_minute_volume_total (tzOffset : Int) (ticks : List Tick) :
    ((volume_by_minute tzOffset ticks).map Prod.snd).sum
      = (ticks.map (fun t => t.size)).sum := by
  unfold volume_by_minute
  rw [List.map_map]
  have hperm : ((minuteKeys tzOffset ticks).map
      (Prod.snd ∘ fun k => (k, ((ticks.filter (fun u => decide (minuteKey tzOffset u = k))).map
        (fun u => u.size)).sum))).Perm
      (((ticks.map (minuteKey tzOffset)).dedup).map
        (fun k => ((ticks.filter (fun u => decide (minuteKey tzOffset u = k))).map
          (fun u => u.size)).sum)) :=
    List.Perm.map _ (List.perm_insertionSort _ _)
  rw [hperm.sum_eq]
  exact sum_groupSums (minuteKey tzOffset) (fun u => u.size)
    ((ticks.map (minuteKey tzOffset)).dedup) ticks
    (List.nodup_dedup _)
    (fun a ha => List.mem_dedup.mpr (List.mem_map_of_mem _ ha))

/-- C2 counterexample: on a batch whose first tick has size 0 the code
does not fail — `calculate_vwap` emits a full series whose first entry is
the NaN that pandas produces for `0/0` (modelled `none`), silently
carried along; the claim asserts a DivideByZero/UndefinedAggregate
failure and no non-numeric emission. -/
theorem claim2_counterexample :
    (calculate_vwap [⟨0, 100, 0, "PLTR"⟩, ⟨1, 10, 5, "PLTR"⟩]).map Prod.snd
      = [none, some 10] := by
  simp [calculate_vwap, vwapAux]

/-- C2 (amended): on a batch whose first tick has size 0, the VWAP
computation does not raise any error: it emits a series of the same
length as the input whose entry at the first position is the non-numeric
NaN (`none`), i.e. `0/0` is silently propagated instead of being
reported as a DivideByZero/UndefinedAggregate failure. -/
theorem claim2_zero_size_first_emits_nan (t : Tick) (rest : List Tick) (h : t.size = 0) :
    (calculate_vwap (t :: rest)).length = (t :: rest).length
    ∧ ((calculate_vwap (t :: rest)).map Prod.snd)[0]? = some none := by
  refine ⟨vwapAux_length 0 0 (t :: rest), ?_⟩
  simp [calculate_vwap, vwapAux, h]

/-- C2 witness: the amended statement at a concrete one-tick batch of
size 0. -/
theorem claim2_witness :
    (calculate_vwap [⟨0, 100, 0, "PLTR"⟩]).length = ([⟨0, 100, 0, "PLTR"⟩] : List Tick).length
    ∧ ((calculate_vwap [⟨0, 100, 0, "PLTR"⟩]).map Prod.snd)[0]? = some none :=
  claim2_zero_size_first_emits_nan ⟨0, 100, 0, "PLTR"⟩ [] rfl

/-- C5: exact-equality extremum tagging with tie-all semantics (lines
79-85): a tick of the sequence carries a given extremum flag iff its
price is exactly (no epsilon) the extremal price of the corresponding
partition — equivalently, iff it bounds every member of its partition.
Since the condition depends only on the tick's price, every tick sharing
the extremal price is tagged; there is no single-winner tie-break.  The
same holds for all four flags. -/
theorem claim5_extremum_tag_iff (tzOffset : Int) (ticks : List Tick) (t : Tick)
    (h : t ∈ ticks) :
    (is_hourly_high tzOffset ticks t = true
       ↔ ∀ u ∈ ticks, hourKey tzOffset u = hourKey tzOffset t → u.price ≤ t.price)
    ∧ (is_hourly_low tzOffset ticks t = true
       ↔ ∀ u ∈ ticks, hourKey tzOffset u = hourKey tzOffset t → t.price ≤ u.price)
    ∧ (is_day_high ticks t = true ↔ ∀ u ∈ ticks, u.price ≤ t.price)
    ∧ (is_day_low ticks t = true ↔ ∀ u ∈ ticks, t.price ≤ u.price) :=
  ⟨is_hourly_high_iff tzOffset ticks t h, is_hourly_low_iff tzOffset ticks t h,
   is_day_high_iff ticks t h, is_day_low_iff ticks t h⟩

/-- C5 witness: two ticks of the same hour sharing the extremal price;
the first one is tagged HOUR_HIGH (and by symmetry of the statement so
is the second). -/
theorem claim5_witness :
    is_hourly_high 0 [⟨0, 5, 1, "X"⟩, ⟨1, 5, 1, "X"⟩] ⟨0, 5, 1, "X"⟩ = true :=
  ((claim5_extremum_tag_iff 0 [⟨0, 5, 1, "X"⟩, ⟨1, 5, 1, "X"⟩] ⟨0, 5, 1, "X"⟩
      (List.mem_cons_self _ _)).1).mpr
    (by
      intro u hu _
      rcases List.mem_cons.mp hu with hu | hu
      · rw [hu]
      · rw [List.mem_singleton.mp hu])

/-- C10: a tick tagged as day extremum is also tagged as the matching
hour extremum (the day maximum attained inside an hour partition is that
partition's maximum), and on a non-empty sequence the day extrema are
attained: some tick carries `is_day_high` and some tick carries
`is_day_low`. -/
theorem claim10_day_extremum_facts (tzOffset : Int) (ticks : List Tick) (t : Tick)
    (h : t ∈ ticks) :
    (is_day_high ticks t = true → is_hourly_high tzOffset ticks t = true)
    ∧ (is_day_low ticks t = true → is_hourly_low tzOffset ticks t = true)
    ∧ (∃ u ∈ ticks, is_day_high ticks u = true)
    ∧ (∃ u ∈ ticks, is_day_low ticks u = true) := by
  refine ⟨?_, ?_, ?_, ?_⟩
  · intro hd
    exact (is_hourly_high_iff tzOffset ticks t h).mpr
      (fun u hu _ => (is_day_high_iff ticks t h).mp hd u hu)
  · intro hd
    exact (is_hourly_low_iff tzOffset ticks t h).mpr
      (fun u hu _ => (is_day_low_iff ticks t h).mp hd u hu)
  · cases hm : seriesMax (ticks.map (fun u => u.price)) with
    | none =>
        exfalso
        have h1 : t.price ∈ ticks.map (fun u => u.price) := List.mem_map_of_mem _ h
        rw [(seriesMax_eq_none_iff _).mp hm] at h1
        exact absurd h1 (List.not_mem_nil _)
    | some m =>
        obtain ⟨hmem, -⟩ := (seriesMax_eq_some_iff _ m).mp hm
        rcases List.mem_map.mp hmem with ⟨u, hu, hup⟩
        refine ⟨u, hu, ?_⟩
        unfold is_day_high day_high
        rw [hm, hup]
        simp
  · cases hm : seriesMin (ticks.map (fun u => u.price)) with
    | none =>
        exfalso
        have h1 : t.price ∈ ticks.map (fun u => u.price) := List.mem_map_of_mem _ h
        rw [(seriesMin_eq_none_iff _).mp hm] at h1
        exact absurd h1 (List.not_mem_nil _)
    | some m =>
        obtain ⟨hmem, -⟩ := (seriesMin_eq_some_iff _ m).mp hm
        rcases List.mem_map.mp hmem with ⟨u, hu, hup⟩
        refine ⟨u, hu, ?_⟩
        unfold is_day_low day_low
        rw [hm, hup]
        simp

/-- C10 witness: the day high is attained on a concrete one-tick
sequence. -/
theorem claim10_witness :
    ∃ u ∈ ([⟨0, 5, 1, "X"⟩] : List Tick), is_day_high [⟨0, 5, 1, "X"⟩] u = true :=
  (claim10_day_extremum_facts 0 [⟨0, 5, 1, "X"⟩] ⟨0, 5, 1, "X"⟩
    (List.mem_singleton.mpr rfl)).2.2.1

/-- C4: a batch consisting of one single in-range tick produces exactly
one enriched row, and that row carries all four extremum flags
simultaneously — the hour and day checks are independent and not
mutually exclusive. -/
theorem claim4_single_tick_all_four (tzOffset startTs endTs : Int) (t : Tick)
    (h1 : startTs ≤ t.ts_event) (h2 : t.ts_event ≤ endTs) :
    (fetch_and_chart_trades tzOffset startTs endTs [t]).map
        (fun r => (r.is_hourly_high, r.is_hourly_low, r.is_day_high, r.is_day_low))
      = [(true, true, true, true)] := by
  simp [fetch_and_chart_trades, normalizedRows, calculate_vwap, vwapAux, rangeFilter, h1, h2,
    sortByTime, List.insertionSort, List.orderedInsert, is_hourly_high, is_hourly_low,
    is_day_high, is_day_low, hourMax, hourMin, hourGroup, day_high, day_low,
    seriesMax, seriesMin]

/-- C4 witness: the single-tick property at a concrete in-range tick. -/
theorem claim4_witness :
    (fetch_and_chart_trades 0 0 10 [⟨5, 3, 2, "X"⟩]).map
        (fun r => (r.is_hourly_high, r.is_hourly_low, r.is_day_high, r.is_day_low))
      = [(true, true, true, true)] :=
  claim4_single_tick_all_four 0 0 10 ⟨5, 3, 2, "X"⟩ (by decide) (by decide)

theorem vwapAux_getElem? (l : List Tick) : ∀ (cv : Nat) (cn : ℚ) (i : Nat),
    (vwapAux cv cn l)[i]? = l[i]?.map (fun t =>
      (t, if cv + prefixVolume l i = 0 then none
          else some ((cn + prefixNotional l i) / ((cv + prefixVolume l i : Nat) : ℚ)))) := by
  induction l with
  | nil => intro cv cn i; simp [vwapAux]
  | cons t rest ih =>
      intro cv cn i
      cases i with
      | zero => simp [vwapAux, prefixVolume, prefixNotional]
      | succ i =>
          have hv : prefixVolume (t :: rest) (i + 1) = t.size + prefixVolume rest i := by
            simp [prefixVolume, List.take_succ_cons]
          have hn : prefixNotional (t :: rest) (i + 1)
              = t.price * (t.size : ℚ) + prefixNotional rest i := by
            simp [prefixNotional, List.take_succ_cons]
          simp only [vwapAux, List.getElem?_cons_succ, ih, hv, hn]
          simp only [← Nat.add_assoc, ← add_assoc]

/-- C1 counterexample: a raw batch whose first tick lies outside the
requested `[10, 20]` range.  The normalized sequence is the single
in-range tick of price 10, so the spec-side VWAP series over the
normalized sequence is `[10]`; but the code computed the VWAP before
filtering, so the exported row carries `(100*1 + 10*1)/2 = 55`, which
still contains the dropped tick's contribution. -/
theorem claim1_counterexample :
    (fetch_and_chart_trades 0 10 20 [⟨0, 100, 1, "X"⟩, ⟨15, 10, 1, "X"⟩]).map (fun r => r.vwap)
      ≠ spec_vwap_series (normalizedTicks 10 20 [⟨0, 100, 1, "X"⟩, ⟨15, 10, 1, "X"⟩]) := by
  have hL : (fetch_and_chart_trades 0 10 20 [⟨0, 100, 1, "X"⟩, ⟨15, 10, 1, "X"⟩]).map
      (fun r => r.vwap) = [some 55] := by
    simp [fetch_and_chart_trades, normalizedRows, calculate_vwap, vwapAux, rangeFilter,
      sortByTime, List.insertionSort, List.orderedInsert]
    norm_num
  have hR : spec_vwap_series (normalizedTicks 10 20 [⟨0, 100, 1, "X"⟩, ⟨15, 10, 1, "X"⟩])
      = [some 10] := by
    simp [spec_vwap_series, normalizedTicks, normalizedRows, calculate_vwap, vwapAux,
      rangeFilter, sortByTime, List.insertionSort, List.orderedInsert, specVwapAt,
      prefixVolume, prefixNotional, List.range_succ]
  rw [hL, hR]
  intro hc
  simp only [List.cons.injEq, Option.some.injEq, and_true] at hc
  norm_num at hc

/-- C1 (amended): the VWAP series is computed over the raw fetched
sequence in its emission order, before the range filter and the sort
(line 51 runs before lines 57-66): `calculate_vwap` pairs the tick at
position `i` of the raw sequence with the prefix ratio
`(Σ_{j≤i} price_j·size_j)/(Σ_{j≤i} size_j)` of the raw sequence (NaN,
i.e. `none`, when that volume sum is zero), and every row of the final
enriched frame carries the vwap its tick was paired with on the raw
frame — not a vwap recomputed over the normalized sequence. -/
theorem claim1_vwap_computed_before_normalization (tzOffset startTs endTs : Int)
    (raw : List Tick) (row : Enriched)
    (h : row ∈ fetch_and_chart_trades tzOffset startTs endTs raw) :
    (calculate_vwap raw).map Prod.fst = raw
    ∧ (∀ i : Nat, ((calculate_vwap raw).map Prod.snd)[i]?
        = raw[i]?.map (fun _ => specVwapAt raw i))
    ∧ (row.tick, row.vwap) ∈ calculate_vwap raw := by
  refine ⟨vwapAux_map_fst 0 0 raw, ?_, ?_⟩
  · intro i
    rw [List.getElem?_map, calculate_vwap, vwapAux_getElem?]
    simp only [specVwapAt, Option.map_map, Nat.zero_add, zero_add]
    rfl
  · simp only [fetch_and_chart_trades] at h
    rcases List.mem_map.mp h with ⟨r, hr, hrow⟩
    have h1 : r ∈ rangeFilter startTs endTs (calculate_vwap raw) := by
      unfold normalizedRows sortByTime at hr
      exact (List.mem_insertionSort tsLe).mp hr
    have h2 : r ∈ calculate_vwap raw := (List.mem_filter.mp h1).1
    rw [← hrow]
    simpa using h2

/-- C1 witness: the amended statement at a concrete one-tick batch whose
only enriched row indeed carries the raw-frame vwap pairing. -/
theorem claim1_witness :
    ((⟨⟨5, 3, 2, "X"⟩, some 3, true, true, true, true, "DAY_LOW"⟩ : Enriched).tick,
     (⟨⟨5, 3, 2, "X"⟩, some 3, true, true, true, true, "DAY_LOW"⟩ : Enriched).vwap)
      ∈ calculate_vwap [⟨5, 3, 2, "X"⟩] := by
  have hev : fetch_and_chart_trades 0 0 10 [⟨5, 3, 2, "X"⟩]
      = [⟨⟨5, 3, 2, "X"⟩, some 3, true, true, true, true, "DAY_LOW"⟩] := by
    simp [fetch_and_chart_trades, normalizedRows, calculate_vwap, vwapAux, rangeFilter,
      sortByTime, List.insertionSort, List.orderedInsert, is_hourly_high, is_hourly_low,
      is_day_high, is_day_low, hourMax, hourMin, hourGroup, day_high, day_low, seriesMax,
      seriesMin, noteOf, overwrite]
  have hmem : (⟨⟨5, 3, 2, "X"⟩, some 3, true, true, true, true, "DAY_LOW"⟩ : Enriched)
      ∈ fetch_and_chart_trades 0 0 10 [⟨5, 3, 2, "X"⟩] := by
    rw [hev]
    exact List.mem_singleton.mpr rfl
  exact (claim1_vwap_computed_before_normalization 0 0 10 [⟨5, 3, 2, "X"⟩] _ hmem).2.2

/-- C6: when every raw tick lies outside the requested range, the
filtered sequence is empty and every downstream stage yields an empty,
well-typed result: the enriched frame, the CSV export, the hourly
extrema statistics and the minute-volume aggregation are all the empty
list.  (All stages of the embedding are total functions, matching the
pandas behaviour of raising no exception on an empty frame.) -/
theorem claim6_empty_range_all_stages_empty (tzOffset startTs endTs : Int) (raw : List Tick)
    (h : ∀ t ∈ raw, t.ts_event < startTs ∨ endTs < t.ts_event) :
    fetch_and_chart_trades tzOffset startTs endTs raw = []
    ∧ exportRows tzOffset (fetch_and_chart_trades tzOffset startTs endTs raw) = []
    ∧ hourly_stats tzOffset (normalizedTicks startTs endTs raw) = []
    ∧ volume_by_minute tzOffset (normalizedTicks startTs endTs raw) = [] := by
  have hfil : rangeFilter startTs endTs (calculate_vwap raw) = [] := by
    unfold rangeFilter
    rw [List.filter_eq_nil_iff]
    intro r hr
    have hrt : r.1 ∈ raw := by
      rw [← vwapAux_map_fst 0 0 raw]
      exact List.mem_map_of_mem _ hr
    simp only [Bool.and_eq_true, decide_eq_true_eq, not_and]
    intro h1 h2
    rcases h r.1 hrt with h3 | h3 <;> omega
  have hrows : normalizedRows startTs endTs raw = [] := by
    unfold normalizedRows sortByTime
    rw [hfil]
    rfl
  have hticks : normalizedTicks startTs endTs raw = [] := by
    unfold normalizedTicks
    rw [hrows]
    rfl
  refine ⟨?_, ?_, ?_, ?_⟩
  · unfold fetch_and_chart_trades
    rw [hrows]
    rfl
  · unfold fetch_and_chart_trades exportRows
    rw [hrows]
    rfl
  · unfold hourly_stats hourKeys
    rw [hticks]
    rfl
  · unfold volume_by_minute minuteKeys
    rw [hticks]
    rfl

/-- C6 witness: a one-tick batch entirely after the range. -/
theorem claim6_witness :
    fetch_and_chart_trades 0 0 10 [⟨100, 1, 1, "X"⟩] = []
    ∧ exportRows 0 (fetch_and_chart_trades 0 0 10 [⟨100, 1, 1, "X"⟩]) = []
    ∧ hourly_stats 0 (normalizedTicks 0 10 [⟨100, 1, 1, "X"⟩]) = []
    ∧ volume_by_minute 0 (normalizedTicks 0 10 [⟨100, 1, 1, "X"⟩]) = [] :=
  claim6_empty_range_all_stages_empty 0 0 10 [⟨100, 1, 1, "X"⟩]
    (by
      intro t ht
      rw [List.mem_singleton.mp ht]
      decide)

theorem noteOf_cases (hh hl dh dl : Bool) :
    (dl = true → noteOf hh hl dh dl = "DAY_LOW")
    ∧ (dl = false → dh = true → noteOf hh hl dh dl = "DAY_HIGH")
    ∧ (dl = false → dh = false → hl = true → noteOf hh hl dh dl = "HOUR_LOW")
    ∧ (dl = false → dh = false → hl = false → hh = true → noteOf hh hl dh dl = "HOUR_HIGH")
    ∧ (noteOf hh hl dh dl = "" ↔ hh = false ∧ hl = false ∧ dh = false ∧ dl = false) := by
  cases hh <;> cases hl <;> cases dh <;> cases dl <;> simp [noteOf, overwrite]

/-- C9: the exported `note` field of every enriched row holds at most a
single label, chosen by the overwrite order of lines 88-92: the
assignments run HOUR_HIGH, HOUR_LOW, DAY_HIGH, DAY_LOW, so the effective
priority is DAY_LOW over DAY_HIGH over HOUR_LOW over HOUR_HIGH — the
last matching assignment wins when a row carries several flags — and the
note is the empty string exactly when the row carries no flag at all. -/
theorem claim9_note_single_label_priority (tzOffset startTs endTs : Int) (raw : List Tick)
    (row : Enriched) (h : row ∈ fetch_and_chart_trades tzOffset startTs endTs raw) :
    (row.is_day_low = true → row.note = "DAY_LOW")
    ∧ (row.is_day_low = false → row.is_day_high = true → row.note = "DAY_HIGH")
    ∧ (row.is_day_low = false → row.is_day_high = false → row.is_hourly_low = true →
        row.note = "HOUR_LOW")
    ∧ (row.is_day_low = false → row.is_day_high = false → row.is_hourly_low = false →
        row.is_hourly_high = true → row.note = "HOUR_HIGH")
    ∧ (row.note = "" ↔ row.is_hourly_high = false ∧ row.is_hourly_low = false
        ∧ row.is_day_high = false ∧ row.is_day_low = false) := by
  simp only [fetch_and_chart_trades] at h
  rcases List.mem_map.mp h with ⟨r, hr, hrow⟩
  subst hrow
  exact noteOf_cases _ _ _ _

/-- C9 witness: a concrete single-row frame; the row carries all four
flags and its note is DAY_LOW, the last assignment in source order. -/
theorem claim9_witness :
    (⟨⟨5, 3, 2, "X"⟩, some 3, true, true, true, true, "DAY_LOW"⟩ : Enriched).note
      = "DAY_LOW" := by
  have hev : fetch_and_chart_trades 0 0 10 [⟨5, 3, 2, "X"⟩]
      = [⟨⟨5, 3, 2, "X"⟩, some 3, true, true, true, true, "DAY_LOW"⟩] := by
    simp [fetch_and_chart_trades, normalizedRows, calculate_vwap, vwapAux, rangeFilter,
      sortByTime, List.insertionSort, List.orderedInsert, is_hourly_high, is_hourly_low,
      is_day_high, is_day_low, hourMax, hourMin, hourGroup, day_high, day_low, seriesMax,
      seriesMin, noteOf, overwrite]
  have hmem : (⟨⟨5, 3, 2, "X"⟩, some 3, true, true, true, true, "DAY_LOW"⟩ : Enriched)
      ∈ fetch_and_chart_trades 0 0 10 [⟨5, 3, 2, "X"⟩] := by
    rw [hev]
    exact List.mem_singleton.mpr rfl
  exact (claim9_note_single_label_priority 0 0 10 [⟨5, 3, 2, "X"⟩] _ hmem).1 rfl

end TradeChart
